import Mathlib

/-!
A shallow embedding of `src/helmcharts/camcom-sender/static/url_control.js`.

The file defines:
* `JSVal` — the JavaScript values the controller stores in its fields
  (strings, numbers, arrays, `undefined`), together with JavaScript's
  string conversion (used by `URLSearchParams.set` and `Array.join`);
* query-string primitives (`spGet`, `spSet`) mirroring
  `URLSearchParams.get` / `URLSearchParams.set`;
* the `UrlControl` state (dynamic fields, the debounce timer, the
  browser location / history / write log) and the five operations
  `remove_from_list`, `add_to_list`, `change_param`, `change_params`,
  `_change_history` (here `change_history`), plus the timer semantics
  (`fireDue`) and a timed event-loop runner `runTimed`;
* the palette and `randomClusterColor` with the random draw made explicit.

Operations that can raise a JavaScript `TypeError`
(`undefined.includes(...)`, `(5).includes(...)`, pushing onto a string)
return `Except String State`.
-/

namespace UrlCtl

/-- JavaScript values stored in the controller's fields. -/
inductive JSVal where
  | str (s : String)
  | num (n : Int)
  | list (xs : List JSVal)
  | undefined
  deriving Repr

mutual

/-- Structural equality on `JSVal` (the values compared by
`includes`/`!==` in the source are strings, where JavaScript strict
equality is structural). -/
def JSVal.beq : JSVal → JSVal → Bool
  | .str s, .str t => s == t
  | .num m, .num n => m == n
  | .undefined, .undefined => true
  | .list xs, .list ys => beqList xs ys
  | _, _ => false

def beqList : List JSVal → List JSVal → Bool
  | [], [] => true
  | x :: xs, y :: ys => JSVal.beq x y && beqList xs ys
  | _, _ => false

end

mutual

theorem JSVal.beq_iff : ∀ x y : JSVal, (JSVal.beq x y = true) ↔ x = y
  | .str s, .str t => by simp [JSVal.beq]
  | .str _, .num _ => by simp [JSVal.beq]
  | .str _, .list _ => by simp [JSVal.beq]
  | .str _, .undefined => by simp [JSVal.beq]
  | .num _, .str _ => by simp [JSVal.beq]
  | .num m, .num n => by simp [JSVal.beq]
  | .num _, .list _ => by simp [JSVal.beq]
  | .num _, .undefined => by simp [JSVal.beq]
  | .list _, .str _ => by simp [JSVal.beq]
  | .list _, .num _ => by simp [JSVal.beq]
  | .list xs, .list ys => by simp [JSVal.beq, beqList_iff xs ys]
  | .list _, .undefined => by simp [JSVal.beq]
  | .undefined, .str _ => by simp [JSVal.beq]
  | .undefined, .num _ => by simp [JSVal.beq]
  | .undefined, .list _ => by simp [JSVal.beq]
  | .undefined, .undefined => by simp [JSVal.beq]

theorem beqList_iff : ∀ xs ys : List JSVal, (beqList xs ys = true) ↔ xs = ys
  | [], [] => by simp [beqList]
  | [], _ :: _ => by simp [beqList]
  | _ :: _, [] => by simp [beqList]
  | x :: xs, y :: ys => by
      simp [beqList, JSVal.beq_iff x y, beqList_iff xs ys]

end

instance : DecidableEq JSVal :=
  fun x y => decidable_of_iff _ (JSVal.beq_iff x y)

instance : BEq JSVal := ⟨JSVal.beq⟩

instance : LawfulBEq JSVal where
  eq_of_beq h := (JSVal.beq_iff _ _).1 h
  rfl := (JSVal.beq_iff _ _).2 rfl

mutual

/-- JavaScript `String(v)` conversion: numbers print in decimal, arrays
join their elements with commas (as `Array.prototype.toString`). -/
def JSVal.toJSString : JSVal → String
  | .str s => s
  | .num n => toString n
  | .undefined => "undefined"
  | .list xs => String.intercalate "," (joinElems xs)

/-- Element conversion inside `Array.prototype.join`: `undefined`
becomes the empty string there, everything else converts as usual. -/
def joinElems : List JSVal → List String
  | [] => []
  | .undefined :: xs => "" :: joinElems xs
  | x :: xs => x.toJSString :: joinElems xs

end

/-- A URL query string, as an ordered list of key/value pairs. -/
abbrev Query := List (String × String)

/-- `URLSearchParams.get`: the value of the first pair with the given
key, or `none` when the key is absent. -/
def spGet (q : Query) (k : String) : Option String :=
  (q.find? (fun p => p.1 == k)).map (fun p => p.2)

/-- Remove every pair with the given key. -/
def spDeleteAll (q : Query) (k : String) : Query :=
  q.filter (fun p => p.1 != k)

/-- `URLSearchParams.set`: replace the first pair with the given key and
drop the other pairs with that key; append when the key is absent. -/
def spSet : Query → String → String → Query
  | [], k, v => [(k, v)]
  | p :: rest, k, v =>
      if p.1 == k then (k, v) :: spDeleteAll rest k
      else p :: spSet rest k v

/-- The controller's dynamic fields (`this[param]`), an ordered
association list. -/
abbrev Fields := List (String × JSVal)

/-- Reading `this[param]`: a never-set property is `undefined`. -/
def getF (fs : Fields) (k : String) : JSVal :=
  match fs.find? (fun p => p.1 == k) with
  | some p => p.2
  | none => .undefined

/-- Writing `this[param] = v`. -/
def setF (fs : Fields) (k : String) (v : JSVal) : Fields :=
  if fs.any (fun p => p.1 == k) then
    fs.map (fun p => if p.1 == k then (k, v) else p)
  else fs ++ [(k, v)]

/-- The whole embedded world: the controller object plus the pieces of
the browser it touches (timer queue, location, history stack, and a log
of the `history.replaceState` calls with their title argument). -/
structure State where
  fields : Fields
  location : Query
  timers : List (Nat × Nat × Query)
  timeout : Option Nat
  nextId : Nat
  history : List Query
  writes : List (String × Query)
  deriving Repr, DecidableEq

/-- The four keys `_change_history` serializes. -/
def stdParams : List String := ["lat", "lon", "zoom", "base"]

/-- `searchParams.get(k) || d`: the URL value when present and
non-empty (the empty string is falsy in JavaScript), else the default. -/
def orDefault (o : Option String) (d : JSVal) : JSVal :=
  match o with
  | some s => if s = "" then d else .str s
  | none => d

/-- The `UrlControl` constructor: reads `lat`, `lon`, `zoom`, `base`
from the current URL query `q` with `||`-fallback to the supplied
defaults (`default_base_layer` is the global the source references);
`this.timeout = null`. The initial history stack holds the current
entry. -/
def UrlControl.mk (q : Query) (dlat dlon dzoom : JSVal)
    (defaultBaseLayer : String) : State :=
  { fields :=
      [ ("lat", orDefault (spGet q "lat") dlat)
      , ("lon", orDefault (spGet q "lon") dlon)
      , ("zoom", orDefault (spGet q "zoom") dzoom)
      , ("base", orDefault (spGet q "base") (.str defaultBaseLayer)) ]
    location := q
    timers := []
    timeout := none
    nextId := 0
    history := [q]
    writes := [] }

/-- The URL `_change_history` builds: the current location with the
four standard keys overwritten by the current field values. -/
def serializeUrl (st : State) : Query :=
  stdParams.foldl (fun u p => spSet u p (getF st.fields p).toJSString) st.location

/-- `clearTimeout(handle)`: drop the timer with that id
(`clearTimeout(null)` is a no-op). -/
def clearTimeoutF (timers : List (Nat × Nat × Query)) (h : Option Nat) :
    List (Nat × Nat × Query) :=
  match h with
  | none => timers
  | some i => timers.filter (fun x => x.1 != i)

/-- `_change_history()`: build the URL now, cancel the pending timer,
and schedule a write of that URL 300 time units from `now`. -/
def change_history (st : State) (now : Nat) : State :=
  { st with
    timers := clearTimeoutF st.timers st.timeout ++
      [(st.nextId, now + 300, serializeUrl st)]
    timeout := some st.nextId
    nextId := st.nextId + 1 }

/-- `change_param(param, value, change_history = true)`. -/
def change_param (st : State) (p : String) (v : JSVal) (ch : Bool)
    (now : Nat) : State :=
  let st1 := { st with fields := setF st.fields p v }
  if ch then change_history st1 now else st1

/-- `change_params(params)`: assign every pair, then one
`_change_history()`. -/
def change_params (st : State) (ps : List (String × JSVal)) (now : Nat) :
    State :=
  change_history
    { st with fields := ps.foldl (fun fs p => setF fs p.1 p.2) st.fields } now

/-- JavaScript `String.prototype.includes` (substring test; the empty
needle is always contained). -/
def strContains (s t : String) : Bool :=
  ((s.splitOn t).length != 1) || (t == "")

/-- `remove_from_list(param, value)`. On a list field it filters with
strict inequality when the value is included, and always ends in
`_change_history()`. A string receiver answers `includes` but has no
`filter`; numbers and `undefined` have no `includes` at all — those
paths raise a `TypeError`. -/
def remove_from_list (st : State) (p : String) (v : JSVal) (now : Nat) :
    Except String State :=
  match getF st.fields p with
  | .list xs =>
      let fs :=
        if v ∈ xs then setF st.fields p (.list (xs.filter (fun x => x != v)))
        else st.fields
      .ok (change_history { st with fields := fs } now)
  | .str s =>
      if strContains s v.toJSString then .error "TypeError"
      else .ok (change_history st now)
  | _ => .error "TypeError"

/-- `add_to_list(param, value)`: push when not already included, then
`_change_history()`. The same non-list receivers raise `TypeError`
(a string answers `includes` but has no `push`). -/
def add_to_list (st : State) (p : String) (v : JSVal) (now : Nat) :
    Except String State :=
  match getF st.fields p with
  | .list xs =>
      let fs :=
        if v ∈ xs then st.fields
        else setF st.fields p (.list (xs ++ [v]))
      .ok (change_history { st with fields := fs } now)
  | .str s =>
      if strContains s v.toJSString then .ok (change_history st now)
      else .error "TypeError"
  | _ => .error "TypeError"

/-- Replace the current (top) history entry, as
`history.replaceState` does. -/
def replaceTop (h : List Query) (u : Query) : List Query :=
  match h with
  | [] => [u]
  | _ :: rest => u :: rest

/-- The event loop at time `now`: every scheduled timer whose fire time
has arrived runs its callback
`history.replaceState({}, 'WMS UI', url)` — logged in `writes`,
replacing the current history entry and the location. -/
def fireDue (st : State) (now : Nat) : State :=
  let due := st.timers.filter (fun x => decide (x.2.1 ≤ now))
  { st with
    timers := st.timers.filter (fun x => !(decide (x.2.1 ≤ now)))
    writes := st.writes ++ due.map (fun x => ("WMS UI", x.2.2))
    history := due.foldl (fun h x => replaceTop h x.2.2) st.history
    location := due.foldl (fun _ x => x.2.2) st.location }

/-- The caller-facing mutators, as events. -/
inductive MOp where
  | removeL (p : String) (v : JSVal)
  | addL (p : String) (v : JSVal)
  | setP (p : String) (v : JSVal) (ch : Bool)
  | setPs (ps : List (String × JSVal))
  deriving Repr, DecidableEq

/-- One mutator call at time `now`. -/
def applyOp (st : State) (op : MOp) (now : Nat) : Except String State :=
  match op with
  | .removeL p v => remove_from_list st p v now
  | .addL p v => add_to_list st p v now
  | .setP p v ch => .ok (change_param st p v ch now)
  | .setPs ps => .ok (change_params st ps now)

/-- Run a timestamped sequence of mutator calls: before each call the
event loop fires every timer already due at that call's time. A raised
`TypeError` aborts the run. -/
def runTimed (st : State) : List (Nat × MOp) → Except String State
  | [] => .ok st
  | (t, op) :: rest =>
      match applyOp (fireDue st t) op t with
      | .error e => .error e
      | .ok st1 => runTimed st1 rest

/-- The timer-handle invariant: at most one scheduled write exists, and
`this.timeout` points at it. -/
def TimerInv (st : State) : Prop :=
  st.timers.length ≤ 1 ∧ ∀ x ∈ st.timers, st.timeout = some x.1

instance (st : State) : Decidable (TimerInv st) := by
  unfold TimerInv; infer_instance

/-- A value is acceptable as a list field: if it is a list, it has no
duplicates. -/
def valNodup : JSVal → Prop
  | .list xs => xs.Nodup
  | _ => True

instance : (v : JSVal) → Decidable (valNodup v)
  | .str _ => isTrue trivial
  | .num _ => isTrue trivial
  | .undefined => isTrue trivial
  | .list xs => inferInstanceAs (Decidable xs.Nodup)

/-- Every stored field value satisfies `valNodup`. -/
def NodupFields (fs : Fields) : Prop := ∀ p ∈ fs, valNodup p.2

instance (fs : Fields) : Decidable (NodupFields fs) := by
  unfold NodupFields; infer_instance

/-- The values an event supplies to the controller are duplicate-free
lists or scalars. -/
def opValsNodup : MOp → Prop
  | .removeL _ _ => True
  | .addL _ _ => True
  | .setP _ v _ => valNodup v
  | .setPs ps => ∀ p ∈ ps, valNodup p.2

instance : (op : MOp) → Decidable (opValsNodup op)
  | .removeL _ _ => isTrue trivial
  | .addL _ _ => isTrue trivial
  | .setP _ v _ => inferInstanceAs (Decidable (valNodup v))
  | .setPs ps => inferInstanceAs (Decidable (∀ p ∈ ps, valNodup p.2))

/-! ### The cluster color picker (`map_detections_clusters_colors`,
`randomChoice`, `randomClusterColor`), with the `Math.random()` draw
`r` passed explicitly as a rational in `[0, 1)`. -/

def map_detections_clusters_colors : List String :=
  ["#46ff00", "#02750c", "#e400ff", "#fa67e6", "#ff0000", "#881b1b", "#ffff00"]

/-- `arr[Math.floor(arr.length * r)]`; out-of-range indexing yields
`undefined`, hence the `Option`. -/
def randomChoice (arr : List String) (r : ℚ) : Option String :=
  arr.get? (Int.toNat ⌊(arr.length : ℚ) * r⌋)

def randomClusterColor (r : ℚ) : Option String :=
  randomChoice map_detections_clusters_colors r

instance {ε α : Type _} [DecidableEq ε] [DecidableEq α] :
    DecidableEq (Except ε α) := fun x y =>
  match x, y with
  | .ok a, .ok b =>
      if h : a = b then isTrue (by rw [h]) else isFalse (by simp [h])
  | .error e, .error f =>
      if h : e = f then isTrue (by rw [h]) else isFalse (by simp [h])
  | .ok _, .error _ => isFalse (by simp)
  | .error _, .ok _ => isFalse (by simp)

/-! ### Lemmas about the query-string primitives -/

theorem spGet_nil (k : String) : spGet [] k = none := rfl

theorem spGet_cons (p : String × String) (q : Query) (k : String) :
    spGet (p :: q) k = if p.1 = k then some p.2 else spGet q k := by
  by_cases h : p.1 = k <;> simp [spGet, List.find?_cons, h]

theorem spDeleteAll_nil (k : String) : spDeleteAll [] k = [] := rfl

theorem spDeleteAll_cons (p : String × String) (q : Query) (k : String) :
    spDeleteAll (p :: q) k =
      if p.1 = k then spDeleteAll q k else p :: spDeleteAll q k := by
  by_cases h : p.1 = k <;> simp [spDeleteAll, List.filter_cons, h]

theorem spSet_nil (k v : String) : spSet [] k v = [(k, v)] := rfl

theorem spSet_cons (p : String × String) (q : Query) (k v : String) :
    spSet (p :: q) k v =
      if p.1 = k then (k, v) :: spDeleteAll q k else p :: spSet q k v := by
  by_cases h : p.1 = k <;> simp [spSet, h]

theorem keyFilter_cons (p : String × String) (q : Query) (k : String) :
    (p :: q).filter (fun x => x.1 == k) =
      if p.1 = k then p :: q.filter (fun x => x.1 == k)
      else q.filter (fun x => x.1 == k) := by
  by_cases h : p.1 = k <;> simp [List.filter_cons, h]

theorem spGet_spDeleteAll_ne (q : Query) (k k1 : String) (h : k1 ≠ k) :
    spGet (spDeleteAll q k) k1 = spGet q k1 := by
  have hk1 : ¬ k = k1 := fun e => h e.symm
  induction q with
  | nil => rfl
  | cons p rest ih =>
      rw [spDeleteAll_cons, spGet_cons]
      by_cases hp : p.1 = k
      · have hp1 : ¬ p.1 = k1 := by rw [hp]; exact hk1
        simp [hp, hp1, h, hk1, ih]
      · by_cases hp1 : p.1 = k1
        · simp [hp, hp1, h, hk1, spGet_cons]
        · simp [hp, hp1, h, hk1, spGet_cons, ih]

theorem spGet_spSet_self (q : Query) (k v : String) :
    spGet (spSet q k v) k = some v := by
  induction q with
  | nil => simp [spSet_nil, spGet_cons]
  | cons p rest ih =>
      rw [spSet_cons]
      by_cases hp : p.1 = k
      · simp [hp, spGet_cons]
      · simp [hp, spGet_cons, ih]

theorem spGet_spSet_ne (q : Query) (k k1 v : String) (h : k1 ≠ k) :
    spGet (spSet q k v) k1 = spGet q k1 := by
  have hk1 : ¬ k = k1 := fun e => h e.symm
  induction q with
  | nil => simp [spSet_nil, spGet_cons, spGet_nil, hk1]
  | cons p rest ih =>
      rw [spSet_cons, spGet_cons]
      by_cases hp : p.1 = k
      · have hp1 : ¬ p.1 = k1 := by rw [hp]; exact hk1
        simp [hp, hp1, h, hk1, spGet_cons,
          spGet_spDeleteAll_ne rest k k1 h]
      · by_cases hp1 : p.1 = k1
        · simp [hp, hp1, h, hk1, spGet_cons]
        · simp [hp, hp1, h, hk1, spGet_cons, ih]

theorem filter_spDeleteAll_ne (q : Query) (k k1 : String) (h : k1 ≠ k) :
    (spDeleteAll q k).filter (fun p => p.1 == k1) =
      q.filter (fun p => p.1 == k1) := by
  have hk1 : ¬ k = k1 := fun e => h e.symm
  induction q with
  | nil => rfl
  | cons p rest ih =>
      rw [spDeleteAll_cons, keyFilter_cons]
      by_cases hp : p.1 = k
      · have hp1 : ¬ p.1 = k1 := by rw [hp]; exact hk1
        simp [hp, hp1, h, hk1, ih]
      · by_cases hp1 : p.1 = k1
        · simp [hp, hp1, h, hk1, keyFilter_cons, ih]
        · simp [hp, hp1, h, hk1, keyFilter_cons, ih]

theorem filter_spSet_ne (q : Query) (k k1 v : String) (h : k1 ≠ k) :
    (spSet q k v).filter (fun p => p.1 == k1) =
      q.filter (fun p => p.1 == k1) := by
  have hk1 : ¬ k = k1 := fun e => h e.symm
  induction q with
  | nil => simp [spSet_nil, keyFilter_cons, hk1]
  | cons p rest ih =>
      rw [spSet_cons]
      by_cases hp : p.1 = k
      · have hp1 : ¬ p.1 = k1 := by rw [hp]; exact hk1
        simp [hp, hp1, h, hk1, keyFilter_cons,
          filter_spDeleteAll_ne rest k k1 h]
      · by_cases hp1 : p.1 = k1
        · simp [hp, hp1, h, hk1, keyFilter_cons, ih]
        · simp [hp, hp1, h, hk1, keyFilter_cons, ih]


/-! ### Lemmas about the field map -/

theorem getF_nil (k : String) : getF [] k = .undefined := rfl

theorem getF_cons (p : String × JSVal) (fs : Fields) (k : String) :
    getF (p :: fs) k = if p.1 = k then p.2 else getF fs k := by
  by_cases h : p.1 = k <;> simp [getF, List.find?_cons, h]

theorem setF_cons_eq (p : String × JSVal) (fs : Fields) (k : String)
    (v : JSVal) (h : p.1 = k) :
    setF (p :: fs) k v =
      (k, v) :: fs.map (fun q => if q.1 == k then (k, v) else q) := by
  simp [setF, List.any_cons, h]

theorem setF_cons_ne (p : String × JSVal) (fs : Fields) (k : String)
    (v : JSVal) (h : ¬ p.1 = k) :
    setF (p :: fs) k v = p :: setF fs k v := by
  by_cases h2 : fs.any (fun q => q.1 == k) <;>
    simp [setF, List.any_cons, h, h2]

theorem getF_map_ne (fs : Fields) (k k1 : String) (v : JSVal)
    (h : ¬ k = k1) :
    getF (fs.map (fun q => if q.1 == k then (k, v) else q)) k1 =
      getF fs k1 := by
  induction fs with
  | nil => rfl
  | cons p rest ih =>
      simp only [beq_iff_eq] at ih ⊢
      rw [List.map_cons, getF_cons, getF_cons]
      by_cases hp : p.1 = k
      · have hp1 : ¬ p.1 = k1 := by rw [hp]; exact h
        rw [if_pos hp]
        simp [getF_cons, h, hp1, ih]
      · rw [if_neg hp]
        by_cases hp1 : p.1 = k1
        · simp [getF_cons, hp1]
        · simp [getF_cons, hp1, ih]

theorem getF_setF_self (fs : Fields) (k : String) (v : JSVal) :
    getF (setF fs k v) k = v := by
  induction fs with
  | nil => simp [setF, getF_cons]
  | cons p rest ih =>
      by_cases hp : p.1 = k
      · rw [setF_cons_eq p rest k v hp]; simp [getF_cons]
      · rw [setF_cons_ne p rest k v hp]; simp [getF_cons, hp, ih]

theorem getF_setF_ne (fs : Fields) (k k1 : String) (v : JSVal)
    (h : k1 ≠ k) :
    getF (setF fs k v) k1 = getF fs k1 := by
  have hk1 : ¬ k = k1 := fun e => h e.symm
  induction fs with
  | nil => simp [setF, getF_cons, hk1, getF_nil]
  | cons p rest ih =>
      by_cases hp : p.1 = k
      · have hp1 : ¬ p.1 = k1 := by rw [hp]; exact hk1
        rw [setF_cons_eq p rest k v hp]
        have hm := getF_map_ne rest k k1 v hk1
        simp only [beq_iff_eq] at hm
        simp [getF_cons, hk1, hp1, hm]
      · by_cases hp1 : p.1 = k1 <;>
          · rw [setF_cons_ne p rest k v hp]
            simp [getF_cons, hp1, ih]

theorem mem_setF (fs : Fields) (k : String) (v : JSVal)
    (q : String × JSVal) (hq : q ∈ setF fs k v) :
    q = (k, v) ∨ q ∈ fs := by
  unfold setF at hq
  by_cases h2 : fs.any (fun p => p.1 == k)
  · rw [if_pos h2] at hq
    rcases List.mem_map.mp hq with ⟨p, hp, he⟩
    by_cases hpk : p.1 = k
    · left; rw [← he]; simp [hpk]
    · right; rw [← he]; simpa [hpk] using hp
  · rw [if_neg h2] at hq
    rcases List.mem_append.mp hq with hl | hr
    · right; exact hl
    · left; simpa using hr

theorem nodupFields_setF (fs : Fields) (k : String) (v : JSVal)
    (h : NodupFields fs) (hv : valNodup v) :
    NodupFields (setF fs k v) := by
  intro q hq
  rcases mem_setF fs k v q hq with he | hm
  · rw [he]; exact hv
  · exact h q hm

theorem getF_nodup (fs : Fields) (k : String) (xs : List JSVal)
    (h : NodupFields fs) (hg : getF fs k = .list xs) : xs.Nodup := by
  unfold getF at hg
  cases hfind : fs.find? (fun p => p.1 == k) with
  | none => rw [hfind] at hg; simp at hg
  | some p =>
      rw [hfind] at hg
      simp only [] at hg
      have hv := h p (List.mem_of_find?_eq_some hfind)
      rw [hg] at hv
      exact hv



/-! ### Batched assignment (the loop body of `change_params`) -/

def setAll (fs : Fields) (ps : List (String × JSVal)) : Fields :=
  ps.foldl (fun a p => setF a p.1 p.2) fs

theorem change_params_eq (st : State) (ps : List (String × JSVal))
    (now : Nat) :
    change_params st ps now =
      change_history { st with fields := setAll st.fields ps } now := rfl

/-- The batched assignment realizes the last binding of each key. -/
theorem getF_setAll (fs : Fields) (ps : List (String × JSVal))
    (k : String) :
    getF (setAll fs ps) k =
      (match ps.reverse.find? (fun p => p.1 == k) with
       | some p => p.2
       | none => getF fs k) := by
  induction ps generalizing fs with
  | nil => rfl
  | cons p rest ih =>
      show getF (setAll (setF fs p.1 p.2) rest) k = _
      rw [ih]
      rw [List.reverse_cons, List.find?_append]
      cases hr : rest.reverse.find? (fun q => q.1 == k) with
      | some q => simp [Option.or]
      | none =>
          by_cases hp : p.1 = k
          · have hb : (p.1 == k) = true := by simp [hp]
            simp only [Option.or, List.find?, hb]
            rw [← hp]
            exact getF_setF_self fs p.1 p.2
          · have hb : (p.1 == k) = false := by simp [hp]
            have hk : k ≠ p.1 := fun e => hp e.symm
            simp [Option.or, List.find?, hb, getF_setF_ne fs p.1 k p.2 hk]

theorem nodupFields_setAll (fs : Fields) (ps : List (String × JSVal))
    (h : NodupFields fs) (hps : ∀ p ∈ ps, valNodup p.2) :
    NodupFields (setAll fs ps) := by
  induction ps generalizing fs with
  | nil => exact h
  | cons p rest ih =>
      show NodupFields (setAll (setF fs p.1 p.2) rest)
      exact ih (setF fs p.1 p.2)
        (nodupFields_setF fs p.1 p.2 h (hps p (List.mem_cons_self p rest)))
        (fun q hq => hps q (List.mem_cons_of_mem p hq))

/-! ### Lemmas about the debounce timer and the event loop -/

theorem fields_change_history (st : State) (now : Nat) :
    (change_history st now).fields = st.fields := rfl

theorem nextId_change_history (st : State) (now : Nat) :
    (change_history st now).nextId = st.nextId + 1 := rfl

theorem writes_change_history (st : State) (now : Nat) :
    (change_history st now).writes = st.writes := rfl

/-- Under the timer invariant, `_change_history` cancels the pending
write (if any) and leaves exactly the newly scheduled one, due 300
time units from now and carrying the URL serialized from the current
state. -/
theorem timers_change_history (st : State) (now : Nat) (h : TimerInv st) :
    (change_history st now).timers =
      [(st.nextId, now + 300, serializeUrl st)] := by
  rcases h with ⟨hlen, hpt⟩
  have hct : clearTimeoutF st.timers st.timeout = [] := by
    cases hst : st.timers with
    | nil => cases hto : st.timeout <;> simp [clearTimeoutF]
    | cons e rest =>
        cases rest with
        | nil =>
            have hto := hpt e (by rw [hst]; exact List.mem_cons_self e [])
            simp [clearTimeoutF, hto]
        | cons e2 rest2 => rw [hst] at hlen; simp at hlen
  show clearTimeoutF st.timers st.timeout ++ _ = _
  rw [hct]
  rfl

theorem timerInv_change_history (st : State) (now : Nat)
    (h : TimerInv st) : TimerInv (change_history st now) := by
  constructor
  · rw [timers_change_history st now h]; simp
  · intro x hx
    rw [timers_change_history st now h] at hx
    simp at hx
    show some st.nextId = some x.1
    rw [hx]

theorem timerInv_fields (st : State) (fs : Fields) (h : TimerInv st) :
    TimerInv { st with fields := fs } := h

theorem fields_fireDue (st : State) (now : Nat) :
    (fireDue st now).fields = st.fields := rfl

theorem timeout_fireDue (st : State) (now : Nat) :
    (fireDue st now).timeout = st.timeout := rfl

theorem timerInv_fireDue (st : State) (now : Nat) (h : TimerInv st) :
    TimerInv (fireDue st now) := by
  rcases h with ⟨hlen, hpt⟩
  constructor
  · exact le_trans (List.length_filter_le _ _) hlen
  · intro x hx
    exact hpt x (List.mem_of_mem_filter hx)

/-- If the single pending timer is due, the event loop runs it: the
write (with the constant title) is appended and the timer queue
empties. -/
theorem fireDue_single (st : State) (now id ft : Nat) (u : Query)
    (hst : st.timers = [(id, ft, u)]) (hdue : ft ≤ now) :
    (fireDue st now).writes = st.writes ++ [("WMS UI", u)] ∧
      (fireDue st now).timers = [] := by
  constructor <;> simp [fireDue, hst, hdue]

/-- If the single pending timer is not yet due, nothing fires. -/
theorem fireDue_not_due (st : State) (now id ft : Nat) (u : Query)
    (hst : st.timers = [(id, ft, u)]) (hdue : ¬ ft ≤ now) :
    fireDue st now = st := by
  simp [fireDue, hst, hdue]
  rw [← hst]

theorem fireDue_empty (st : State) (now : Nat) (hst : st.timers = []) :
    fireDue st now = st := by
  simp [fireDue, hst]
  rw [← hst]

theorem length_foldl_replaceTop (l : List (Nat × Nat × Query))
    (h : List Query) (hh : 1 ≤ h.length) :
    (l.foldl (fun a x => replaceTop a x.2.2) h).length = h.length := by
  induction l generalizing h with
  | nil => rfl
  | cons x rest ih =>
      cases h with
      | nil => simp at hh
      | cons q hs =>
          show (rest.foldl (fun a x => replaceTop a x.2.2)
            (replaceTop (q :: hs) x.2.2)).length = _
          rw [show replaceTop (q :: hs) x.2.2 = x.2.2 :: hs from rfl]
          exact ih (x.2.2 :: hs) (by simp)

/-- Committed writes replace the current history entry: the history
stack never grows. -/
theorem history_length_fireDue (st : State) (now : Nat)
    (h : 1 ≤ st.history.length) :
    (fireDue st now).history.length = st.history.length :=
  length_foldl_replaceTop _ st.history h

/-- Every write the event loop ever performs carries the constant
title `WMS UI`. -/
theorem writes_fireDue_mem (st : State) (now : Nat) (w : String × Query)
    (hw : w ∈ (fireDue st now).writes) : w ∈ st.writes ∨ w.1 = "WMS UI" := by
  simp only [fireDue] at hw
  rcases List.mem_append.mp hw with hl | hr
  · exact Or.inl hl
  · rcases List.mem_map.mp hr with ⟨x, hx, he⟩
    right
    rw [← he]



/-! ### Shape and preservation lemmas for the mutators -/

theorem timers_change_param_false (st : State) (p : String) (v : JSVal)
    (now : Nat) : (change_param st p v false now).timers = st.timers := rfl

theorem writes_change_param_false (st : State) (p : String) (v : JSVal)
    (now : Nat) : (change_param st p v false now).writes = st.writes := rfl

theorem timerInv_change_param (st : State) (p : String) (v : JSVal)
    (ch : Bool) (now : Nat) (h : TimerInv st) :
    TimerInv (change_param st p v ch now) := by
  cases ch with
  | false => exact timerInv_fields st _ h
  | true =>
      show TimerInv (change_history { st with fields := setF st.fields p v } now)
      exact timerInv_change_history _ now (timerInv_fields st _ h)

/-- Every successful mutator call either ends in `_change_history` on a
state with updated fields, or (silent `change_param`) only updates the
fields. -/
theorem applyOp_shape (st : State) (op : MOp) (now : Nat) (st1 : State)
    (hok : applyOp st op now = .ok st1) :
    (∃ fs, st1 = change_history { st with fields := fs } now) ∨
    (∃ fs, st1 = { st with fields := fs }) := by
  cases op with
  | removeL p v =>
      simp only [applyOp, remove_from_list] at hok
      cases hg : getF st.fields p with
      | list xs =>
          rw [hg] at hok
          simp only [Except.ok.injEq] at hok
          exact Or.inl ⟨_, hok.symm⟩
      | str s =>
          rw [hg] at hok
          by_cases hc : strContains s v.toJSString
          · simp [hc] at hok
          · simp only [hc, Bool.false_eq_true, if_neg, ite_false,
              Except.ok.injEq] at hok
            left
            refine ⟨st.fields, ?_⟩
            rw [← hok]
      | num n => rw [hg] at hok; simp at hok
      | undefined => rw [hg] at hok; simp at hok
  | addL p v =>
      simp only [applyOp, add_to_list] at hok
      cases hg : getF st.fields p with
      | list xs =>
          rw [hg] at hok
          simp only [Except.ok.injEq] at hok
          exact Or.inl ⟨_, hok.symm⟩
      | str s =>
          rw [hg] at hok
          by_cases hc : strContains s v.toJSString
          · simp only [hc, ite_true, Except.ok.injEq] at hok
            left
            refine ⟨st.fields, ?_⟩
            rw [← hok]
          · simp [hc] at hok
      | num n => rw [hg] at hok; simp at hok
      | undefined => rw [hg] at hok; simp at hok
  | setP p v ch =>
      simp only [applyOp, Except.ok.injEq] at hok
      cases ch with
      | false => exact Or.inr ⟨setF st.fields p v, hok.symm⟩
      | true => exact Or.inl ⟨setF st.fields p v, hok.symm⟩
  | setPs ps =>
      simp only [applyOp, Except.ok.injEq] at hok
      exact Or.inl ⟨setAll st.fields ps, hok.symm⟩

theorem timerInv_applyOp (st : State) (op : MOp) (now : Nat) (st1 : State)
    (h : TimerInv st) (hok : applyOp st op now = .ok st1) :
    TimerInv st1 := by
  rcases applyOp_shape st op now st1 hok with ⟨fs, he⟩ | ⟨fs, he⟩
  · rw [he]; exact timerInv_change_history _ now (timerInv_fields st fs h)
  · rw [he]; exact timerInv_fields st fs h

theorem timerInv_runTimed (st : State) (ops : List (Nat × MOp))
    (st1 : State) (h : TimerInv st) (hok : runTimed st ops = .ok st1) :
    TimerInv st1 := by
  induction ops generalizing st with
  | nil => simp only [runTimed, Except.ok.injEq] at hok; rw [← hok]; exact h
  | cons top rest ih =>
      obtain ⟨t, op⟩ := top
      simp only [runTimed] at hok
      cases happ : applyOp (fireDue st t) op t with
      | error e => rw [happ] at hok; simp at hok
      | ok st2 =>
          rw [happ] at hok
          exact ih st2 (timerInv_applyOp _ op t st2 (timerInv_fireDue st t h) happ) hok

theorem nodupFields_applyOp (st : State) (op : MOp) (now : Nat) (st1 : State)
    (h : NodupFields st.fields) (hop : opValsNodup op)
    (hok : applyOp st op now = .ok st1) : NodupFields st1.fields := by
  cases op with
  | removeL p v =>
      simp only [applyOp, remove_from_list] at hok
      cases hg : getF st.fields p with
      | list xs =>
          rw [hg] at hok
          simp only [Except.ok.injEq] at hok
          rw [← hok, fields_change_history]
          by_cases hv : v ∈ xs
          · simp only [if_pos hv]
            exact nodupFields_setF _ p _ h
              (List.Nodup.filter _ (getF_nodup st.fields p xs h hg))
          · simp only [if_neg hv]; exact h
      | str s =>
          rw [hg] at hok
          by_cases hc : strContains s v.toJSString
          · simp [hc] at hok
          · simp only [hc, Bool.false_eq_true, if_neg, ite_false,
              Except.ok.injEq] at hok
            rw [← hok, fields_change_history]
            exact h
      | num n => rw [hg] at hok; simp at hok
      | undefined => rw [hg] at hok; simp at hok
  | addL p v =>
      simp only [applyOp, add_to_list] at hok
      cases hg : getF st.fields p with
      | list xs =>
          rw [hg] at hok
          simp only [Except.ok.injEq] at hok
          rw [← hok, fields_change_history]
          by_cases hv : v ∈ xs
          · simp only [if_pos hv]; exact h
          · simp only [if_neg hv]
            refine nodupFields_setF _ p _ h ?_
            show (xs ++ [v]).Nodup
            rw [(List.perm_append_singleton v xs).nodup_iff, List.nodup_cons]
            exact ⟨hv, getF_nodup st.fields p xs h hg⟩
      | str s =>
          rw [hg] at hok
          by_cases hc : strContains s v.toJSString
          · simp only [hc, ite_true, Except.ok.injEq] at hok
            rw [← hok, fields_change_history]
            exact h
          · simp [hc] at hok
      | num n => rw [hg] at hok; simp at hok
      | undefined => rw [hg] at hok; simp at hok
  | setP p v ch =>
      simp only [applyOp, Except.ok.injEq] at hok
      rw [← hok]
      cases ch with
      | false => exact nodupFields_setF _ _ _ h hop
      | true =>
          show NodupFields
            (change_history { st with fields := setF st.fields p v } now).fields
          rw [fields_change_history]
          exact nodupFields_setF _ _ _ h hop
  | setPs ps =>
      simp only [applyOp, Except.ok.injEq] at hok
      rw [← hok, change_params_eq, fields_change_history]
      exact nodupFields_setAll st.fields ps h hop

theorem nodupFields_runTimed (st : State) (ops : List (Nat × MOp))
    (st1 : State) (h : NodupFields st.fields)
    (hops : ∀ x ∈ ops, opValsNodup x.2)
    (hok : runTimed st ops = .ok st1) : NodupFields st1.fields := by
  induction ops generalizing st with
  | nil => simp only [runTimed, Except.ok.injEq] at hok; rw [← hok]; exact h
  | cons top rest ih =>
      obtain ⟨t, op⟩ := top
      simp only [runTimed] at hok
      cases happ : applyOp (fireDue st t) op t with
      | error e => rw [happ] at hok; simp at hok
      | ok st2 =>
          rw [happ] at hok
          have hf : NodupFields (fireDue st t).fields := by
            rw [fields_fireDue]; exact h
          exact ih st2
            (nodupFields_applyOp _ op t st2 hf
              (hops (t, op) (List.mem_cons_self _ _)) happ)
            (fun x hx => hops x (List.mem_cons_of_mem _ hx)) hok

/-! ### What `_change_history` serializes -/

theorem serializeUrl_eq (st : State) :
    serializeUrl st =
      spSet (spSet (spSet (spSet st.location
        "lat" (getF st.fields "lat").toJSString)
        "lon" (getF st.fields "lon").toJSString)
        "zoom" (getF st.fields "zoom").toJSString)
        "base" (getF st.fields "base").toJSString := rfl

/-- The serialized URL carries each of the four standard keys with the
string conversion of the corresponding field value. -/
theorem spGet_serializeUrl_std (st : State) (k : String)
    (hk : k ∈ stdParams) :
    spGet (serializeUrl st) k = some (getF st.fields k).toJSString := by
  rw [serializeUrl_eq]
  simp only [stdParams, List.mem_cons, List.not_mem_nil, or_false] at hk
  rcases hk with rfl | rfl | rfl | rfl
  · rw [spGet_spSet_ne _ _ _ _ (by decide), spGet_spSet_ne _ _ _ _ (by decide),
      spGet_spSet_ne _ _ _ _ (by decide), spGet_spSet_self]
  · rw [spGet_spSet_ne _ _ _ _ (by decide), spGet_spSet_ne _ _ _ _ (by decide),
      spGet_spSet_self]
  · rw [spGet_spSet_ne _ _ _ _ (by decide), spGet_spSet_self]
  · rw [spGet_spSet_self]

/-- Every query parameter other than the four standard keys keeps all
its pairs (in particular its value) in the serialized URL. -/
theorem filter_serializeUrl_other (st : State) (k : String)
    (hk : ¬ k ∈ stdParams) :
    (serializeUrl st).filter (fun p => p.1 == k) =
      st.location.filter (fun p => p.1 == k) := by
  rw [serializeUrl_eq]
  simp only [stdParams, List.mem_cons, List.not_mem_nil, or_false, not_or] at hk
  obtain ⟨h1, h2, h3, h4⟩ := hk
  rw [filter_spSet_ne _ _ _ _ h4, filter_spSet_ne _ _ _ _ h3,
    filter_spSet_ne _ _ _ _ h2, filter_spSet_ne _ _ _ _ h1]

theorem spGet_serializeUrl_other (st : State) (k : String)
    (hk : ¬ k ∈ stdParams) :
    spGet (serializeUrl st) k = spGet st.location k := by
  rw [serializeUrl_eq]
  simp only [stdParams, List.mem_cons, List.not_mem_nil, or_false, not_or] at hk
  obtain ⟨h1, h2, h3, h4⟩ := hk
  rw [spGet_spSet_ne _ _ _ _ h4, spGet_spSet_ne _ _ _ _ h3,
    spGet_spSet_ne _ _ _ _ h2, spGet_spSet_ne _ _ _ _ h1]



/-! ### Claim theorems -/

/-- The specified initialization of one constructor field: the URL
value when the parameter is present with a non-empty value, the default
when absent or empty. -/
def initFieldSpec (o : Option String) (d r : JSVal) : Prop :=
  (∀ s, o = some s → s ≠ "" → r = .str s) ∧
  (o = none → r = d) ∧ (o = some "" → r = d)

theorem orDefault_spec (o : Option String) (d : JSVal) :
    initFieldSpec o d (orDefault o d) := by
  refine ⟨?_, ?_, ?_⟩
  · intro s hs hne
    cases o with
    | none => cases hs
    | some t =>
        rw [Option.some.injEq] at hs
        subst hs
        simp [orDefault, hne]
  · intro hn
    cases o with
    | none => rfl
    | some t => cases hn
  · intro hs
    cases o with
    | none => cases hs
    | some t =>
        rw [Option.some.injEq] at hs
        subst hs
        simp [orDefault]

theorem getF_mk_lat (q : Query) (dlat dlon dzoom : JSVal) (dbl : String) :
    getF (UrlControl.mk q dlat dlon dzoom dbl).fields "lat" =
      orDefault (spGet q "lat") dlat := by
  simp [UrlControl.mk, getF_cons]

theorem getF_mk_lon (q : Query) (dlat dlon dzoom : JSVal) (dbl : String) :
    getF (UrlControl.mk q dlat dlon dzoom dbl).fields "lon" =
      orDefault (spGet q "lon") dlon := by
  simp [UrlControl.mk, getF_cons]

theorem getF_mk_zoom (q : Query) (dlat dlon dzoom : JSVal) (dbl : String) :
    getF (UrlControl.mk q dlat dlon dzoom dbl).fields "zoom" =
      orDefault (spGet q "zoom") dzoom := by
  simp [UrlControl.mk, getF_cons]

theorem getF_mk_base (q : Query) (dlat dlon dzoom : JSVal) (dbl : String) :
    getF (UrlControl.mk q dlat dlon dzoom dbl).fields "base" =
      orDefault (spGet q "base") (.str dbl) := by
  simp [UrlControl.mk, getF_cons]

/-- C1, counterexample to the claim as stated: in the URL `?lat=` the
parameter `lat` is present (with the empty value), yet the constructor
stores the default `0`, not the URL value `""` — `||` falls back on any
falsy value, not only on absence. -/
theorem C1_counterexample :
    spGet [("lat", "")] "lat" = some "" ∧
    getF (UrlControl.mk [("lat", "")] (.num 0) (.num 0) (.num 1)
      "osm").fields "lat" = .num 0 ∧
    (JSVal.num 0 ≠ .str "") := by decide

/-- C1 (amended): construction sets each of `lat`, `lon`, `zoom`,
`base` to the URL query value of the same name whenever that parameter
is present with a non-empty value, and otherwise (absent or empty) to
the supplied default — for `base`, to the process-wide default base
layer; in particular a URL with `lat=5`, no `lon`, `zoom=3`, no `base`
and defaults `0, 0, 1, "osm"` yields
`{lat: "5", lon: 0, zoom: "3", base: "osm"}`. -/
theorem C1_init_fields (q : Query) (dlat dlon dzoom : JSVal)
    (dbl : String) :
    initFieldSpec (spGet q "lat") dlat
      (getF (UrlControl.mk q dlat dlon dzoom dbl).fields "lat") ∧
    initFieldSpec (spGet q "lon") dlon
      (getF (UrlControl.mk q dlat dlon dzoom dbl).fields "lon") ∧
    initFieldSpec (spGet q "zoom") dzoom
      (getF (UrlControl.mk q dlat dlon dzoom dbl).fields "zoom") ∧
    initFieldSpec (spGet q "base") (.str dbl)
      (getF (UrlControl.mk q dlat dlon dzoom dbl).fields "base") ∧
    (getF (UrlControl.mk [("lat", "5"), ("zoom", "3")]
        (.num 0) (.num 0) (.num 1) "osm").fields "lat" = .str "5" ∧
      getF (UrlControl.mk [("lat", "5"), ("zoom", "3")]
        (.num 0) (.num 0) (.num 1) "osm").fields "lon" = .num 0 ∧
      getF (UrlControl.mk [("lat", "5"), ("zoom", "3")]
        (.num 0) (.num 0) (.num 1) "osm").fields "zoom" = .str "3" ∧
      getF (UrlControl.mk [("lat", "5"), ("zoom", "3")]
        (.num 0) (.num 0) (.num 1) "osm").fields "base" = .str "osm") := by
  refine ⟨?_, ?_, ?_, ?_, by decide⟩
  · rw [getF_mk_lat]; exact orDefault_spec _ _
  · rw [getF_mk_lon]; exact orDefault_spec _ _
  · rw [getF_mk_zoom]; exact orDefault_spec _ _
  · rw [getF_mk_base]; exact orDefault_spec _ _

/-- Witness for C1: a URL carrying `lat=7` makes the constructor store
the string `"7"`. -/
theorem C1_init_fields_witness :
    getF (UrlControl.mk [("lat", "7")] (.num 0) (.num 0) (.num 1)
      "osm").fields "lat" = .str "7" :=
  (C1_init_fields [("lat", "7")] (.num 0) (.num 0) (.num 1) "osm").1.1
    "7" (by decide) (by decide)

/-- C2: every history-update request cancels the previously scheduled
write and schedules exactly one new write 300 time units later (so,
under the timer invariant, at most one write is ever pending, and the
invariant is preserved by every run); calling
`setParam`/`addToList`/`removeFromList` three times, each before 300
time units elapse since the previous call, produces exactly one URL
write, reflecting only the final state. -/
theorem C2_debounce :
    (∀ st now, TimerInv st →
      (change_history st now).timers =
        [(st.nextId, now + 300, serializeUrl st)]) ∧
    (∀ st ops st1, TimerInv st → runTimed st ops = .ok st1 →
      TimerInv st1) ∧
    ((runTimed (UrlControl.mk [] (.num 0) (.num 0) (.num 1) "osm")
        [(0, .setP "layers" (.list []) false),
         (0, .addL "layers" (.str "x")),
         (100, .setP "lat" (.num 7) true),
         (200, .removeL "layers" (.str "x"))]).map
        (fun st => (fireDue st 1000).writes) =
      .ok [("WMS UI",
        [("lat", "7"), ("lon", "0"), ("zoom", "1"), ("base", "osm")])]) :=
  ⟨timers_change_history, timerInv_runTimed, by decide⟩

/-- Witness for C2: starting from a state with one pending timer
(scheduled at time 0), a request at time 50 leaves exactly the new
timer, due at 350. -/
theorem C2_debounce_witness :
    (change_history (change_history (UrlControl.mk []
        (.num 0) (.num 0) (.num 1) "osm") 0) 50).timers =
      [(1, 350, [("lat", "0"), ("lon", "0"), ("zoom", "1"),
        ("base", "osm")])] :=
  (C2_debounce.1 (change_history (UrlControl.mk []
      (.num 0) (.num 0) (.num 1) "osm") 0) 50 (by decide)).trans (by decide)

/-- C3: the committed write serializes exactly the four scalar fields
into the query string (each standard key carries the string conversion
of its field value), every other query parameter keeps its pairs and
its value, the write replaces the current history entry (the history
stack length never changes), and every write carries the fixed title
`WMS UI`. -/
theorem C3_serialize :
    (∀ st k, k ∈ stdParams →
      spGet (serializeUrl st) k = some (getF st.fields k).toJSString) ∧
    (∀ st k, ¬ k ∈ stdParams →
      (serializeUrl st).filter (fun p => p.1 == k) =
        st.location.filter (fun p => p.1 == k) ∧
      spGet (serializeUrl st) k = spGet st.location k) ∧
    (∀ st now, 1 ≤ st.history.length →
      (fireDue st now).history.length = st.history.length) ∧
    (∀ st now w, w ∈ (fireDue st now).writes →
      w ∈ st.writes ∨ w.1 = "WMS UI") :=
  ⟨spGet_serializeUrl_std,
   fun st k hk => ⟨filter_serializeUrl_other st k hk,
     spGet_serializeUrl_other st k hk⟩,
   history_length_fireDue,
   writes_fireDue_mem⟩

/-- Witness for C3: a concrete state whose URL holds a foreign
parameter `foo=bar`; serialization rewrites `lat` and keeps `foo`. -/
theorem C3_serialize_witness :
    spGet (serializeUrl (UrlControl.mk [("foo", "bar")]
      (.num 0) (.num 0) (.num 1) "osm")) "lat" = some "0" ∧
    (serializeUrl (UrlControl.mk [("foo", "bar")]
      (.num 0) (.num 0) (.num 1) "osm")).filter
        (fun p => p.1 == "foo") = [("foo", "bar")] :=
  ⟨(C3_serialize.1 (UrlControl.mk [("foo", "bar")]
      (.num 0) (.num 0) (.num 1) "osm") "lat" (by decide)).trans (by decide),
   ((C3_serialize.2.1 (UrlControl.mk [("foo", "bar")]
      (.num 0) (.num 0) (.num 1) "osm") "foo" (by decide)).1).trans
     (by decide)⟩



/-- C4, counterexample to the claim as stated: on a controller with no
prior `layers` field, `add_to_list` evaluates `undefined.includes`,
which raises a `TypeError` — it does not create the list. -/
theorem C4_counterexample :
    runTimed (UrlControl.mk [] (.num 0) (.num 0) (.num 1) "osm")
      [(0, .addL "layers" (.str "x"))] = .error "TypeError" := by decide

/-- C4 (amended): on a field that holds a list, `add_to_list` appends
the value exactly when the list does not already contain it (insertion
order preserved, duplicates never stored), leaves every other field
unchanged, and always triggers a history update afterward (a new write
is scheduled); on a never-set field the call raises a `TypeError`
instead. Starting from `layers = []`, two `addToList("layers", "x")`
calls yield the single-element list `["x"]`. -/
theorem C4_add_to_list (st : State) (p : String) (v : JSVal)
    (xs : List JSVal) (now : Nat) (hg : getF st.fields p = .list xs) :
    (∃ st1, add_to_list st p v now = .ok st1 ∧
      getF st1.fields p = .list (if v ∈ xs then xs else xs ++ [v]) ∧
      (∀ k, k ≠ p → getF st1.fields k = getF st.fields k) ∧
      st1.nextId = st.nextId + 1 ∧
      (TimerInv st → st1.timers =
        [(st.nextId, now + 300,
          serializeUrl { st with fields := st1.fields })])) ∧
    ((runTimed (UrlControl.mk [] (.num 0) (.num 0) (.num 1) "osm")
        [(0, .setP "layers" (.list []) false),
         (0, .addL "layers" (.str "x")),
         (0, .addL "layers" (.str "x"))]).map
        (fun s => getF s.fields "layers") = .ok (.list [.str "x"])) := by
  refine ⟨?_, by decide⟩
  have he : add_to_list st p v now =
      .ok (change_history { st with fields :=
        (if v ∈ xs then st.fields
         else setF st.fields p (.list (xs ++ [v]))) } now) := by
    unfold add_to_list
    rw [hg]
  refine ⟨_, he, ?_, ?_, ?_, ?_⟩
  · rw [fields_change_history]
    by_cases hv : v ∈ xs
    · rw [if_pos hv, if_pos hv]; exact hg
    · rw [if_neg hv, if_neg hv]; exact getF_setF_self _ _ _
  · intro k hk
    rw [fields_change_history]
    by_cases hv : v ∈ xs
    · rw [if_pos hv]
    · rw [if_neg hv]; exact getF_setF_ne _ _ _ _ hk
  · rfl
  · intro hinv
    exact timers_change_history _ now (timerInv_fields st _ hinv)

/-- Witness for C4: a controller whose `layers` field holds the empty
list accepts `addToList`. -/
theorem C4_add_to_list_witness :
    getF (change_param (UrlControl.mk [] (.num 0) (.num 0) (.num 1)
      "osm") "layers" (.list []) false 0).fields "layers" = .list [] ∧
    (∃ st1, add_to_list (change_param (UrlControl.mk []
        (.num 0) (.num 0) (.num 1) "osm") "layers" (.list []) false 0)
        "layers" (.str "x") 5 = .ok st1 ∧
      getF st1.fields "layers" =
        .list (if JSVal.str "x" ∈ ([] : List JSVal) then []
          else [] ++ [.str "x"]) ∧
      (∀ k, k ≠ "layers" →
        getF st1.fields k = getF (change_param (UrlControl.mk []
          (.num 0) (.num 0) (.num 1) "osm") "layers" (.list [])
          false 0).fields k) ∧
      st1.nextId = (change_param (UrlControl.mk []
        (.num 0) (.num 0) (.num 1) "osm") "layers" (.list [])
        false 0).nextId + 1 ∧
      (TimerInv (change_param (UrlControl.mk []
          (.num 0) (.num 0) (.num 1) "osm") "layers" (.list [])
          false 0) → st1.timers =
        [((change_param (UrlControl.mk [] (.num 0) (.num 0) (.num 1)
            "osm") "layers" (.list []) false 0).nextId, 5 + 300,
          serializeUrl { change_param (UrlControl.mk []
            (.num 0) (.num 0) (.num 1) "osm") "layers" (.list [])
            false 0 with fields := st1.fields })])) :=
  ⟨by decide,
   (C4_add_to_list (change_param (UrlControl.mk []
      (.num 0) (.num 0) (.num 1) "osm") "layers" (.list []) false 0)
     "layers" (.str "x") [] 5 (by decide)).1⟩

/-- C5: on a field holding a list, `remove_from_list` produces the list
with the value excluded (relative order preserved; a no-op on the field
when the value is absent), leaves other fields unchanged, and triggers
a history update unconditionally — even in the no-op case; in
particular `removeFromList("layers", "y")` with `layers = ["x"]` leaves
`["x"]` yet still schedules a write. -/
theorem C5_remove_from_list (st : State) (p : String) (v : JSVal)
    (xs : List JSVal) (now : Nat) (hg : getF st.fields p = .list xs) :
    (∃ st1, remove_from_list st p v now = .ok st1 ∧
      getF st1.fields p = .list (xs.filter (fun x => x != v)) ∧
      (∀ k, k ≠ p → getF st1.fields k = getF st.fields k) ∧
      st1.nextId = st.nextId + 1 ∧
      (TimerInv st → st1.timers =
        [(st.nextId, now + 300,
          serializeUrl { st with fields := st1.fields })])) ∧
    ((runTimed (UrlControl.mk [] (.num 0) (.num 0) (.num 1) "osm")
        [(0, .setP "layers" (.list [.str "x"]) false),
         (0, .removeL "layers" (.str "y"))]).map
        (fun s => (getF s.fields "layers", s.timers.length)) =
      .ok (.list [.str "x"], 1)) := by
  refine ⟨?_, by decide⟩
  have he : remove_from_list st p v now =
      .ok (change_history { st with fields :=
        (if v ∈ xs then
          setF st.fields p (.list (xs.filter (fun x => x != v)))
         else st.fields) } now) := by
    unfold remove_from_list
    rw [hg]
  refine ⟨_, he, ?_, ?_, ?_, ?_⟩
  · rw [fields_change_history]
    by_cases hv : v ∈ xs
    · rw [if_pos hv]; exact getF_setF_self _ _ _
    · rw [if_neg hv]
      have hfilter : xs.filter (fun x => x != v) = xs :=
        List.filter_eq_self.mpr (fun x hx => by
          simp
          intro hev
          rw [hev] at hx
          exact absurd hx hv)
      rw [hfilter]
      exact hg
  · intro k hk
    rw [fields_change_history]
    by_cases hv : v ∈ xs
    · rw [if_pos hv]; exact getF_setF_ne _ _ _ _ hk
    · rw [if_neg hv]
  · rfl
  · intro hinv
    exact timers_change_history _ now (timerInv_fields st _ hinv)

/-- Witness for C5: removing an absent value from `layers = ["x"]`. -/
theorem C5_remove_from_list_witness :
    getF (change_param (UrlControl.mk [] (.num 0) (.num 0) (.num 1)
      "osm") "layers" (.list [.str "x"]) false 0).fields "layers" =
      .list [.str "x"] ∧
    (∃ st1, remove_from_list (change_param (UrlControl.mk []
        (.num 0) (.num 0) (.num 1) "osm") "layers" (.list [.str "x"])
        false 0) "layers" (.str "y") 5 = .ok st1 ∧
      getF st1.fields "layers" =
        .list (([.str "x"] : List JSVal).filter (fun x => x != .str "y")) ∧
      (∀ k, k ≠ "layers" →
        getF st1.fields k = getF (change_param (UrlControl.mk []
          (.num 0) (.num 0) (.num 1) "osm") "layers" (.list [.str "x"])
          false 0).fields k) ∧
      st1.nextId = (change_param (UrlControl.mk []
        (.num 0) (.num 0) (.num 1) "osm") "layers" (.list [.str "x"])
        false 0).nextId + 1 ∧
      (TimerInv (change_param (UrlControl.mk []
          (.num 0) (.num 0) (.num 1) "osm") "layers" (.list [.str "x"])
          false 0) → st1.timers =
        [((change_param (UrlControl.mk [] (.num 0) (.num 0) (.num 1)
            "osm") "layers" (.list [.str "x"]) false 0).nextId, 5 + 300,
          serializeUrl { change_param (UrlControl.mk []
            (.num 0) (.num 0) (.num 1) "osm") "layers"
            (.list [.str "x"]) false 0 with fields := st1.fields })])) :=
  ⟨by decide,
   (C5_remove_from_list (change_param (UrlControl.mk []
      (.num 0) (.num 0) (.num 1) "osm") "layers" (.list [.str "x"])
      false 0) "layers" (.str "y") [.str "x"] 5 (by decide)).1⟩



/-- C6: `change_params` assigns every key/value pair of the mapping onto
the controller's fields (each key's final value is its last binding in
the mapping, keys not mentioned keep their value) and triggers exactly
one history update after all assignments; `change_param` assigns the
value and triggers the update only when the flag is true. The concrete
`setParams({lat: 10, zoom: 5})` updates both fields and leaves exactly
one scheduled write. -/
theorem C6_change_params :
    (∀ st ps now k,
      getF (change_params st ps now).fields k =
        (match ps.reverse.find? (fun p => p.1 == k) with
         | some p => p.2
         | none => getF st.fields k)) ∧
    (∀ st ps now, (change_params st ps now).nextId = st.nextId + 1 ∧
      (TimerInv st → (change_params st ps now).timers =
        [(st.nextId, now + 300,
          serializeUrl { st with
            fields := (change_params st ps now).fields })])) ∧
    (∀ st p v now,
      getF (change_param st p v false now).fields p = v ∧
      (change_param st p v false now).timers = st.timers ∧
      (change_param st p v false now).nextId = st.nextId ∧
      getF (change_param st p v true now).fields p = v ∧
      (change_param st p v true now).nextId = st.nextId + 1) ∧
    ((change_params (UrlControl.mk [] (.num 0) (.num 0) (.num 1) "osm")
        [("lat", .num 10), ("zoom", .num 5)] 0).timers.length = 1 ∧
      getF (change_params (UrlControl.mk [] (.num 0) (.num 0) (.num 1)
        "osm") [("lat", .num 10), ("zoom", .num 5)] 0).fields "lat" =
        .num 10 ∧
      getF (change_params (UrlControl.mk [] (.num 0) (.num 0) (.num 1)
        "osm") [("lat", .num 10), ("zoom", .num 5)] 0).fields "zoom" =
        .num 5) := by
  refine ⟨?_, ?_, ?_, by decide⟩
  · intro st ps now k
    rw [change_params_eq, fields_change_history]
    exact getF_setAll st.fields ps k
  · intro st ps now
    refine ⟨rfl, fun hinv => ?_⟩
    rw [change_params_eq]
    exact timers_change_history _ now (timerInv_fields st _ hinv)
  · intro st p v now
    exact ⟨getF_setF_self _ _ _, rfl, rfl, getF_setF_self _ _ _, rfl⟩

/-- Witness for C6: one `setParams` call on a fresh controller leaves
exactly the single newly scheduled write. -/
theorem C6_change_params_witness :
    (change_params (UrlControl.mk [] (.num 0) (.num 0) (.num 1) "osm")
      [("lat", .num 10)] 0).timers =
      [(0, 300,
        [("lat", "10"), ("lon", "0"), ("zoom", "1"), ("base", "osm")])] :=
  ((C6_change_params.2.1 (UrlControl.mk [] (.num 0) (.num 0) (.num 1)
      "osm") [("lat", .num 10)] 0).2 (by decide)).trans (by decide)

/-- C7, counterexample to the claim as stated: `setParam` performs no
validation, so assigning a duplicate-containing list reaches a state
whose list-typed field `layers` holds a duplicate. -/
theorem C7_counterexample :
    (runTimed (UrlControl.mk [] (.num 0) (.num 0) (.num 1) "osm")
        [(0, .setP "layers" (.list [.str "x", .str "x"]) true)]).map
        (fun s => getF s.fields "layers") =
      .ok (.list [.str "x", .str "x"]) ∧
    ¬ ([JSVal.str "x", JSVal.str "x"] : List JSVal).Nodup := by
  constructor
  · decide
  · decide

/-- C7 (amended): provided every list value supplied to construction
(`addToList`/`removeFromList` supply none) and to `setParam`/`setParams`
is itself duplicate-free, every list-typed field of every state
reachable from construction by any sequence of the mutator operations
contains no duplicates. -/
theorem C7_nodup_invariant (q : Query) (dlat dlon dzoom : JSVal)
    (dbl : String) (ops : List (Nat × MOp)) (st1 : State)
    (h1 : valNodup dlat) (h2 : valNodup dlon) (h3 : valNodup dzoom)
    (hops : ∀ x ∈ ops, opValsNodup x.2)
    (hok : runTimed (UrlControl.mk q dlat dlon dzoom dbl) ops = .ok st1) :
    ∀ k xs, getF st1.fields k = .list xs → xs.Nodup := by
  have hval : ∀ (o : Option String) (d : JSVal), valNodup d →
      valNodup (orDefault o d) := by
    intro o d hd
    cases o with
    | none => exact hd
    | some s =>
        by_cases he : s = ""
        · simp only [orDefault, if_pos he]; exact hd
        · simp only [orDefault, if_neg he]; trivial
  have h0 : NodupFields (UrlControl.mk q dlat dlon dzoom dbl).fields := by
    intro p hp
    simp only [UrlControl.mk, List.mem_cons, List.not_mem_nil,
      or_false] at hp
    rcases hp with rfl | rfl | rfl | rfl
    · exact hval _ _ h1
    · exact hval _ _ h2
    · exact hval _ _ h3
    · exact hval _ _ trivial
  intro k xs hg
  exact getF_nodup st1.fields k xs
    (nodupFields_runTimed _ ops st1 h0 hops hok) hg

/-- Witness for C7: one duplicate-free assignment keeps the field
duplicate-free. -/
theorem C7_nodup_invariant_witness :
    getF (change_param (fireDue (UrlControl.mk [] (.num 0) (.num 0)
        (.num 1) "osm") 0) "layers" (.list [.str "a"]) true 0).fields
      "layers" = .list [.str "a"] ∧
    ([JSVal.str "a"] : List JSVal).Nodup :=
  ⟨by decide,
   C7_nodup_invariant [] (.num 0) (.num 0) (.num 1) "osm"
     [(0, .setP "layers" (.list [.str "a"]) true)]
     (change_param (fireDue (UrlControl.mk [] (.num 0) (.num 0) (.num 1)
       "osm") 0) "layers" (.list [.str "a"]) true 0)
     trivial trivial trivial (by decide) (by decide)
     "layers" [.str "a"] (by decide)⟩



/-- C8, counterexample to the claim as stated: `remove_from_list` on a
field that was never set evaluates `undefined.includes`, which raises a
`TypeError` — it does not yield a silent undefined/empty result. -/
theorem C8_counterexample :
    remove_from_list (UrlControl.mk [] (.num 0) (.num 0) (.num 1) "osm")
      "layers" (.str "x") 0 = .error "TypeError" := by decide

/-- C8 (amended): reading a non-existent field yields `undefined`, and
`setParam`/`setParams` accept any field name and value without
validation and never signal; however the list mutators `addToList` and
`removeFromList` applied to a never-set field raise a `TypeError`
rather than silently returning. -/
theorem C8_silent_access :
    (∀ (fs : Fields) k, (∀ p ∈ fs, ¬ p.1 = k) → getF fs k = .undefined) ∧
    (∀ st p v now, getF st.fields p = .undefined →
      add_to_list st p v now = .error "TypeError" ∧
      remove_from_list st p v now = .error "TypeError") ∧
    (∀ st p v ch now, ∃ st1, applyOp st (.setP p v ch) now = .ok st1) ∧
    (∀ st ps now, ∃ st1, applyOp st (.setPs ps) now = .ok st1) := by
  refine ⟨?_, ?_, fun st p v ch now => ⟨_, rfl⟩, fun st ps now => ⟨_, rfl⟩⟩
  · intro fs k h
    induction fs with
    | nil => rfl
    | cons p rest ih =>
        rw [getF_cons, if_neg (h p (List.mem_cons_self p rest))]
        exact ih (fun q hq => h q (List.mem_cons_of_mem p hq))
  · intro st p v now hu
    constructor
    · unfold add_to_list; rw [hu]
    · unfold remove_from_list; rw [hu]

/-- Witness for C8: a concrete never-set field reads as `undefined`,
and `addToList` on it raises. -/
theorem C8_silent_access_witness :
    getF [("a", JSVal.num 1)] "b" = .undefined ∧
    add_to_list (UrlControl.mk [] (.num 0) (.num 0) (.num 1) "osm")
      "layers" (.str "x") 0 = .error "TypeError" :=
  ⟨C8_silent_access.1 [("a", JSVal.num 1)] "b" (by decide),
   (C8_silent_access.2.1 (UrlControl.mk [] (.num 0) (.num 0) (.num 1)
      "osm") "layers" (.str "x") 0 (by decide)).1⟩

/-- C9: for every random draw `r` with `0 ≤ r < 1`, the computed index
`floor(7 · r)` lies in `0..6` and `randomClusterColor` returns the
palette element at that index — a member of the fixed seven-element
palette; conversely every palette element is returned for some draw. -/
theorem C9_random_color (r : ℚ) (h0 : 0 ≤ r) (h1 : r < 1) :
    (Int.toNat ⌊(7 : ℚ) * r⌋ < 7 ∧
      ∃ c, randomClusterColor r = some c ∧
        c ∈ map_detections_clusters_colors) ∧
    (∀ i : Fin 7, ∃ rr : ℚ, 0 ≤ rr ∧ rr < 1 ∧
      randomClusterColor rr = map_detections_clusters_colors.get? i.1) := by
  have hlen : ((map_detections_clusters_colors.length : ℕ) : ℚ) = 7 := by
    norm_num [map_detections_clusters_colors]
  have hbound : ∀ rr : ℚ, 0 ≤ rr → rr < 1 →
      Int.toNat ⌊(7 : ℚ) * rr⌋ < 7 := by
    intro rr hr0 hr1
    have hge : (0 : ℤ) ≤ ⌊(7 : ℚ) * rr⌋ :=
      Int.floor_nonneg.mpr (by positivity)
    have hlt : ⌊(7 : ℚ) * rr⌋ < (7 : ℤ) := by
      apply Int.floor_lt.mpr
      push_cast
      nlinarith
    omega
  constructor
  · refine ⟨hbound r h0 h1, ?_⟩
    have hidx : Int.toNat ⌊(7 : ℚ) * r⌋ <
        map_detections_clusters_colors.length := by
      have := hbound r h0 h1
      simpa [map_detections_clusters_colors] using this
    refine ⟨map_detections_clusters_colors.get
      ⟨Int.toNat ⌊(7 : ℚ) * r⌋, hidx⟩, ?_, List.get_mem _ _ _⟩
    show map_detections_clusters_colors.get?
      (Int.toNat ⌊((map_detections_clusters_colors.length : ℕ) : ℚ) * r⌋) = _
    rw [hlen]
    exact List.get?_eq_get hidx
  · intro i
    refine ⟨(i.1 : ℚ) / 7, by positivity, ?_, ?_⟩
    · rw [div_lt_one (by norm_num)]
      exact_mod_cast i.2
    · show map_detections_clusters_colors.get?
        (Int.toNat ⌊((map_detections_clusters_colors.length : ℕ) : ℚ) *
          ((i.1 : ℚ) / 7)⌋) = _
      rw [hlen]
      have hmul : (7 : ℚ) * ((i.1 : ℚ) / 7) = (i.1 : ℚ) := by
        field_simp
      rw [hmul, Int.floor_natCast, Int.toNat_natCast]

/-- Witness for C9: the draw `1/2` selects index 3. -/
theorem C9_random_color_witness :
    (0 : ℚ) ≤ 1 / 2 ∧ (1 / 2 : ℚ) < 1 ∧
    (Int.toNat ⌊(7 : ℚ) * (1 / 2)⌋ < 7 ∧
      ∃ c, randomClusterColor (1 / 2) = some c ∧
        c ∈ map_detections_clusters_colors) :=
  ⟨by norm_num, by norm_num,
   (C9_random_color (1 / 2) (by norm_num) (by norm_num)).1⟩

/-- C10: the URL a scheduled write will commit is computed at
scheduling time — a silent mutation (`change_param` with the flag
false) leaves the pending timers and the write log untouched, and when
the timer then fires, the write is the URL serialized from the state as
it was at scheduling time; concretely, scheduling with `lat = 1`, then
silently setting `lat := 99` before the timer fires, writes the URL
with `lat=1`, which differs from the serialization of the final
state. -/
theorem C10_capture_at_schedule :
    (∀ st p v now2, (change_param st p v false now2).timers = st.timers ∧
      (change_param st p v false now2).writes = st.writes) ∧
    (∀ st now p v now2 t, TimerInv st → now + 300 ≤ t →
      (fireDue (change_param (change_history st now) p v false now2)
          t).writes =
        st.writes ++ [("WMS UI", serializeUrl st)]) ∧
    ((runTimed (UrlControl.mk [] (.num 0) (.num 0) (.num 1) "osm")
        [(0, .setP "lat" (.num 1) true),
         (10, .setP "lat" (.num 99) false)]).map
        (fun s => ((fireDue s 1000).writes,
          serializeUrl (fireDue s 1000))) =
      .ok ([("WMS UI",
          [("lat", "1"), ("lon", "0"), ("zoom", "1"), ("base", "osm")])],
        [("lat", "99"), ("lon", "0"), ("zoom", "1"), ("base", "osm")]) ∧
      ([("lat", "1"), ("lon", "0"), ("zoom", "1"), ("base", "osm")] :
          Query) ≠
        [("lat", "99"), ("lon", "0"), ("zoom", "1"), ("base", "osm")]) := by
  refine ⟨fun st p v now2 => ⟨rfl, rfl⟩, ?_, by decide, by decide⟩
  intro st now p v now2 t hinv hdue
  have ht : (change_param (change_history st now) p v false
      now2).timers = [(st.nextId, now + 300, serializeUrl st)] := by
    rw [timers_change_param_false, timers_change_history st now hinv]
  have hw := (fireDue_single _ t st.nextId (now + 300)
    (serializeUrl st) ht hdue).1
  rw [hw, writes_change_param_false, writes_change_history]

/-- Witness for C10: the concrete silent mutation of `lat` before the
timer fires leaves the committed write at the scheduled `lat=0`. -/
theorem C10_capture_at_schedule_witness :
    (fireDue (change_param (change_history (UrlControl.mk []
        (.num 0) (.num 0) (.num 1) "osm") 0) "lat" (.num 99) false 10)
      1000).writes =
      [("WMS UI",
        [("lat", "0"), ("lon", "0"), ("zoom", "1"), ("base", "osm")])] :=
  (C10_capture_at_schedule.2.1 (UrlControl.mk [] (.num 0) (.num 0)
      (.num 1) "osm") 0 "lat" (.num 99) 10 1000 (by decide)
    (by norm_num)).trans (by decide)


end UrlCtl
